import Mathlib

/-!
# Verification of the QB_RAG generation→parse→validate→ensemble pipeline

Shallow embedding of the QB_RAG sources (`output_parser.py`, `utils.py`,
`prompt.py`, `converter.py`) and proofs about them.

Conventions of the embedding:
* Python dictionaries become association lists `Dict V = List (String × V)`;
  lookup returns the first binding, assignment overwrites in place.
* Machine-external collaborators (the LLM text-completion service, the
  langchain/pydantic base parser, the vector store) are parameters:
  the LLM is a stream `Nat → String` indexed by the number of `generate`
  calls issued so far, the base schema parser is a function
  `String → Option α` (`none` = `OutputParserException`), the store simply
  receives the final batch, which we return to the caller.
* Python exceptions are modelled with `Option`/`Except`: `none`/`.error e`
  means the corresponding Python code raises.
-/

namespace QBRAG

/-! ## output_parser.py — `OutputParser.parse`

`parse(result, prompt, llm, max_retries)` first attempts
`super().parse(result)` (the langchain `PydanticOutputParser`, modelled by
the abstract `parse0 : String → Option O`).  On `OutputParserException`
(`none`), if `max_retries != 0` it formats the `FIX_OUTPUT_FORMAT` repair
prompt, issues one `llm.generate` call, and recurses on the new completion
with `max_retries - 1`; if `max_retries == 0` it logs and returns `None`.

The repair completions are modelled by the stream `llm : Nat → String`
(`llm c` is the text returned by the `(c+1)`-st `generate` call of the run);
`calls` is the number of `generate` calls issued before this `parse`
invocation.  `parseRetry` returns the parse outcome together with the total
number of `generate` calls issued afterwards, so repair-call counts are
observable. -/

/-- Embedding of `OutputParser.parse` for a non-negative retry budget
(the recursion structurally consumes the budget; `max_retries != 0`
is `fuel + 1` here). Returns `(outcome, total calls issued)`. -/
def parseRetry (parse0 : String → Option O) (llm : Nat → String) :
    String → Nat → Nat → Option O × Nat
  | result, calls, maxRetries =>
    match parse0 result with
    | some output => (some output, calls)
    | none =>
      match maxRetries with
      | fuel + 1 => parseRetry parse0 llm (llm calls) (calls + 1) fuel
      | 0 => (none, calls)

/-- Embedding of `OutputParser.parse` with the budget carried at its actual
Python type (`int`): the base case fires only when the budget is exactly `0`.
Because nothing forces a negative budget to reach `0`, the recursion is not
structurally terminating; `fuel` bounds the modelled recursion depth, and
`none` at the outer layer means the call has not returned within `fuel`
nested attempts. -/
def parseRetryZ (parse0 : String → Option O) (llm : Nat → String) :
    Nat → String → Nat → Int → Option (Option O × Nat)
  | 0, _, _, _ => none
  | fuel + 1, result, calls, maxRetries =>
    match parse0 result with
    | some output => some (some output, calls)
    | none =>
      if maxRetries ≠ 0 then
        parseRetryZ parse0 llm fuel (llm calls) (calls + 1) (maxRetries - 1)
      else
        some (none, calls)

/-! ## utils.py — `Ensember.from_discrete`

Verdict entries are Python dictionaries; we embed them as association
lists with unique-key discipline maintained by `pySet`.  The function is
duck-typed over the dictionary values, so the embedding is generic in a
value type `V` with decidable equality (Python `==` on the values). -/

/-- Python dictionary values occurring in verdict dictionaries
(`question`/`explanation` are strings, `relevant` is an int). -/
inductive Val where
  | str (s : String)
  | int (n : Int)
  deriving DecidableEq, Inhabited, Repr

/-- A Python dictionary as an association list in insertion order. -/
abbrev Dict (V : Type) := List (String × V)

/-- Lookup `d[k]` (and `k in d`): the first binding of `k`; `none` = `KeyError`. -/
def pyGet (d : Dict V) (k : String) : Option V :=
  (d.find? (fun p => p.1 == k)).map (·.2)

/-- Assignment `d[k] = v`: overwrite if the key exists (a Python dict keeps the key's
insertion position), append a new binding otherwise. -/
def pySet (d : Dict V) (k : String) (v : V) : Dict V :=
  if (d.find? (fun p => p.1 == k)).isSome then
    d.map (fun p => if p.1 == k then (k, v) else p)
  else
    d ++ [(k, v)]

/-- Lookup `d[k]` as a total function (used only where presence is guaranteed). -/
def dget [Inhabited V] (d : Dict V) (k : String) : V :=
  (pyGet d k).iget

/-- The keys of `Counter(verdicts)` in iteration order: `Counter` is a
`dict` subclass, so its keys are the distinct values of `verdicts` in order
of first appearance. -/
def counterKeys [DecidableEq V] (vs : List V) : List V :=
  vs.foldl (fun acc v => if v ∈ acc then acc else acc ++ [v]) []

/-- One accumulation step extracting the head of `most_common()`: the
current best key is replaced only on a strictly larger count, so among
equal counts the earlier key survives — exactly the head of the stable
descending sort `most_common` performs on the counter items. -/
def amStep (c : V → Nat) (best : Option V) (k : V) : Option V :=
  match best with
  | none => some k
  | some b => if c b < c k then some k else some b

/-- The head key `list(dict(Counter(vs).most_common()).keys())[0]`, with `none`
modelling the `IndexError` on an empty `vs`: the first key, in first-seen
order, whose count in `vs` is maximal. -/
def topVerdict [DecidableEq V] (vs : List V) : Option V :=
  (counterKeys vs).foldl (amStep (fun v => vs.count v)) none

/-- Specification-side majority, written from the spec's words: "the
aggregated value is the value with the highest frequency", ties resolving
"to whichever distinct value was encountered first" in sample order — the
first element of `vs` whose frequency no element of `vs` exceeds. -/
def majoritySpec [DecidableEq V] (vs : List V) : Option V :=
  vs.find? (fun v => vs.all (fun w => decide (vs.count w ≤ vs.count v)))

/-- Embedding of `Ensember.from_discrete(inputs, attr)`.

The `isinstance` wrap-up at the top cannot fire here (`inputs` is a list by
type).  The two guards and the singleton case return `inputs[0]` unchanged;
`none` models an uncaught Python exception — `IndexError` at `inputs[0]`
when `inputs` is empty (both guards then pass vacuously), `KeyError` /
`IndexError` inside the loop otherwise (ruled out by the guards).  In the
aggregation loop, `item = inputs[0][i]` is read, the column of attr
values is collected across all lists, and the attr of `item` is
overwritten with the head key of `most_common` (the in-place nature of that
write is studied separately in the heap model below). -/
def from_discrete [DecidableEq V] (inputs : List (List (Dict V)))
    (attr : String) : Option (List (Dict V)) :=
  if !(inputs.all fun item => item.length == (inputs.headD []).length) then
    some (inputs.headD [])
  else if !(inputs.all fun input =>
      input.all fun item => (pyGet item attr).isSome) then
    some (inputs.headD [])
  else if inputs.length == 1 then
    some (inputs.headD [])
  else
    match inputs with
    | [] => none
    | first :: _ =>
      (List.range first.length).mapM fun i => do
        let item ← first.get? i
        let verdicts ← inputs.mapM fun l => do
          let d ← l.get? i
          pyGet d attr
        let top ← topVerdict verdicts
        some (pySet item attr top)

/-! ### Heap model of `from_discrete`: the in-place attribute overwrite

Python dictionaries are mutable objects handled by reference.  To state
what `item[attribute] = ...` does to the *caller's* entry objects, we give
`from_discrete` a second, reference-level embedding: entry objects are
addresses (`Nat`), their current contents live in a heap, and the lists of
the matrix hold addresses.  Everything else mirrors the value-level
embedding above line by line. -/

/-- A heap assigning to every entry object (address) its current dictionary. -/
abbrev Heap (V : Type) := Nat → Dict V

/-- The aggregation loop of `from_discrete` with reference semantics:
`item = inputs[0][i]` picks the *address* of the first list's `i`-th entry;
the column of attribute values is read through the current heap;
`item[attribute] = ...` updates the heap at that address; and
`verdict_agg.append(item)` appends the address itself, not a copy. -/
def aggLoop [DecidableEq V] (inputs : List (List Nat)) (attr : String) :
    Heap V → List Nat → Option (List Nat × Heap V)
  | heap, [] => some ([], heap)
  | heap, i :: is => do
    let addr ← (inputs.headD []).get? i
    let verdicts ← inputs.mapM fun l => do
      let a ← l.get? i
      pyGet (heap a) attr
    let top ← topVerdict verdicts
    let (agg, heap₁) ← aggLoop inputs attr
      (fun a => if a = addr then pySet (heap addr) attr top else heap a) is
    some (addr :: agg, heap₁)

/-- Embedding of `Ensember.from_discrete` at the reference level: guards read through
the heap; on a guard exit `inputs[0]` itself is returned with the heap
untouched; otherwise the loop runs over `range(len(inputs[0]))`. -/
def from_discreteH [DecidableEq V] (heap : Heap V) (inputs : List (List Nat))
    (attr : String) : Option (List Nat × Heap V) :=
  if !(inputs.all fun item => item.length == (inputs.headD []).length) then
    some (inputs.headD [], heap)
  else if !(inputs.all fun input =>
      input.all fun a => (pyGet (heap a) attr).isSome) then
    some (inputs.headD [], heap)
  else if inputs.length == 1 then
    some (inputs.headD [], heap)
  else
    match inputs with
    | [] => none
    | first :: _ => aggLoop inputs attr heap (List.range first.length)

/-! ## prompt.py — `Prompt` and `PromptValue`

Example values and parsed structured data are Python objects representable
as JSON (`arr`/`obj` are Python `list`/`dict`).  `json.loads`/`json.dumps`
and `str.format` are Python-stdlib collaborators; they are embedded here as
executable character-level functions so that the validator and the
formatter are fully concrete. -/

/-- Python objects occurring as prompt example values and as parsed JSON. -/
inductive Json where
  | null
  | bool (b : Bool)
  | num (n : Int)
  | str (s : String)
  | arr (xs : List Json)
  | obj (fields : List (String × Json))
  deriving Inhabited

/-- Escaping inside a serialized JSON string literal. -/
def jsonEscape (s : String) : String :=
  String.mk (s.data.foldr
    (fun c acc => if c = '"' ∨ c = '\\' then '\\' :: c :: acc else c :: acc) [])

mutual

/-- Embedding of `json.dumps` with the default separators (`", "` and `": "`);
`ensure_ascii=False` is immaterial since we do not re-encode. -/
def jsonDump : Json → String
  | Json.null => "null"
  | Json.bool true => "true"
  | Json.bool false => "false"
  | Json.num n => toString n
  | Json.str s => "\"" ++ jsonEscape s ++ "\""
  | Json.arr xs => "[" ++ jsonDumpList xs ++ "]"
  | Json.obj fs => "\x7b" ++ jsonDumpFields fs ++ "\x7d"

def jsonDumpList : List Json → String
  | [] => ""
  | [x] => jsonDump x
  | x :: y :: xs => jsonDump x ++ ", " ++ jsonDumpList (y :: xs)

def jsonDumpFields : List (String × Json) → String
  | [] => ""
  | [kv] => "\"" ++ jsonEscape kv.1 ++ "\": " ++ jsonDump kv.2
  | kv :: kv2 :: fs =>
    "\"" ++ jsonEscape kv.1 ++ "\": " ++ jsonDump kv.2 ++ ", "
      ++ jsonDumpFields (kv2 :: fs)

end

mutual

/-- Python `repr`, as `str.format` renders non-string substituted values
(e.g. a list of questions becomes `['q1', 'q2']`). -/
def pyRepr : Json → String
  | Json.null => "None"
  | Json.bool true => "True"
  | Json.bool false => "False"
  | Json.num n => toString n
  | Json.str s => "\x27" ++ s ++ "\x27"
  | Json.arr xs => "[" ++ pyReprList xs ++ "]"
  | Json.obj fs => "\x7b" ++ pyReprFields fs ++ "\x7d"

def pyReprList : List Json → String
  | [] => ""
  | [x] => pyRepr x
  | x :: y :: xs => pyRepr x ++ ", " ++ pyReprList (y :: xs)

def pyReprFields : List (String × Json) → String
  | [] => ""
  | [kv] => "\x27" ++ kv.1 ++ "\x27: " ++ pyRepr kv.2
  | kv :: kv2 :: fs =>
    "\x27" ++ kv.1 ++ "\x27: " ++ pyRepr kv.2 ++ ", " ++ pyReprFields (kv2 :: fs)

end

/-- Python `str()` of a substituted value: a string stays itself, any other
object is rendered by its `repr`. -/
def pyStr : Json → String
  | Json.str s => s
  | j => pyRepr j

/-- JSON whitespace skipping. -/
def skipWs : List Char → List Char
  | [] => []
  | c :: cs => if c = ' ' ∨ c = '\n' ∨ c = '\t' ∨ c = '\r' then skipWs cs else c :: cs

/-- JSON string escapes (the common single-character ones). -/
def escChar (e : Char) : Char :=
  if e = 'n' then '\n'
  else if e = 't' then '\t'
  else if e = 'r' then '\r'
  else if e = 'b' then '\x08'
  else if e = 'f' then '\x0c'
  else e

/-- Parse a JSON string body after the opening quote: returns the decoded
characters and the remainder after the closing quote. -/
def pStrAux : List Char → Option (List Char × List Char)
  | [] => none
  | c :: cs =>
    if c = '"' then some ([], cs)
    else if c = '\\' then
      match cs with
      | [] => none
      | e :: cs' => (pStrAux cs').map fun r => (escChar e :: r.1, r.2)
    else (pStrAux cs).map fun r => (c :: r.1, r.2)

/-- Parse an integral JSON number.  The repository's prompts and examples
contain no fractional or exponent literals, so only integers are modelled. -/
def pInt (cs : List Char) : Option (Int × List Char) :=
  let core : List Char → List Char → Bool → Option (Int × List Char) :=
    fun ds rest neg =>
      if ds.isEmpty then none
      else
        let n : Nat := ds.foldl (fun acc d => acc * 10 + (d.toNat - 48)) 0
        some (if neg then -(n : Int) else (n : Int), rest)
  match cs with
  | '-' :: cs' => core (cs'.takeWhile Char.isDigit) (cs'.dropWhile Char.isDigit) true
  | _ => core (cs.takeWhile Char.isDigit) (cs.dropWhile Char.isDigit) false

mutual

/-- Parse one JSON value; `fuel` bounds the recursion (each two units of
fuel consume at least one input character). -/
def pVal : Nat → List Char → Option (Json × List Char)
  | 0, _ => none
  | fuel + 1, cs =>
    match skipWs cs with
    | [] => none
    | c :: cs' =>
      if c = '"' then (pStrAux cs').map fun r => (Json.str (String.mk r.1), r.2)
      else if c = '[' then
        match skipWs cs' with
        | ']' :: cs'' => some (Json.arr [], cs'')
        | _ => (pItems fuel cs').map fun r => (Json.arr r.1, r.2)
      else if c = '\x7b' then
        match skipWs cs' with
        | c2 :: cs'' =>
          if c2 = '\x7d' then some (Json.obj [], cs'')
          else (pFields fuel cs').map fun r => (Json.obj r.1, r.2)
        | [] => none
      else
        match c :: cs' with
        | 'n' :: 'u' :: 'l' :: 'l' :: rest => some (Json.null, rest)
        | 't' :: 'r' :: 'u' :: 'e' :: rest => some (Json.bool true, rest)
        | 'f' :: 'a' :: 'l' :: 's' :: 'e' :: rest => some (Json.bool false, rest)
        | rest => (pInt rest).map fun r => (Json.num r.1, r.2)

/-- Parse the comma-separated items of a non-empty JSON array, up to and
including the closing bracket. -/
def pItems : Nat → List Char → Option (List Json × List Char)
  | 0, _ => none
  | fuel + 1, cs => do
    let (x, rest) ← pVal fuel cs
    match skipWs rest with
    | ',' :: rest' => do
      let r ← pItems fuel rest'
      some (x :: r.1, r.2)
    | ']' :: rest' => some ([x], rest')
    | _ => none

/-- Parse the fields of a non-empty JSON object, up to and including the
closing brace. -/
def pFields : Nat → List Char → Option (List (String × Json) × List Char)
  | 0, _ => none
  | fuel + 1, cs =>
    match skipWs cs with
    | '"' :: cs' => do
      let (key, rest) ← pStrAux cs'
      match skipWs rest with
      | ':' :: rest' => do
        let (v, rest2) ← pVal fuel rest'
        match skipWs rest2 with
        | ',' :: r => do
          let f ← pFields fuel r
          some ((String.mk key, v) :: f.1, f.2)
        | '\x7d' :: r => some ([(String.mk key, v)], r)
        | _ => none
      | _ => none
    | _ => none

end

/-- Embedding of `json.loads`: parse a complete JSON document (`none` = `ValueError`).
Fuel `2 * length + 2` suffices: every two units of fuel consume at least
one character of input. -/
def jsonLoads (s : String) : Option Json :=
  match pVal (2 * s.length + 2) s.data with
  | some (j, rest) => if skipWs rest = [] then some j else none
  | none => none

/-- Embedding of `str.lower()` (character-wise so it evaluates). -/
def pyLower (s : String) : String := String.mk (s.data.map Char.toLower)

/-- The `PromptValue` model: the rendered prompt string. -/
structure PromptValue where
  prompt_str : String
  deriving DecidableEq, Repr

/-- Embedding of `PromptValue.to_string`. -/
def PromptValue.to_string (p : PromptValue) : String := p.prompt_str

/-- The `Prompt` pydantic model's fields, with the source's defaults.
An example is a mapping from variable name to value. -/
structure Prompt where
  instruction : String
  output_format_instruction : String := ""
  examples : List (Dict Json) := []
  input_keys : List String := [""]
  output_key : String := ""
  output_type : String := "json"
  language : String := "english"

/-- Python exceptions surfaced by the pipeline.  The spec's
`PromptArgumentError` is the `ValueError` raised by `Prompt.format`,
carrying the expected and the received key sets. -/
inductive PyErr where
  | promptArgumentError (expected received : List String)
  | keyError
  | attributeError
  | indexError
  | validationError
  deriving DecidableEq, Repr

/-- The per-example checks of `Prompt.validate_prompt`, in source order:
every input key present, the output key present, and — when the output type
is `json` — a string-valued output must survive `json.loads`. -/
def checkExamples (input_keys : List String) (output_key output_type : String) :
    Nat → List (Dict Json) → Except String Unit
  | _, [] => .ok ()
  | no, ex :: rest =>
    match input_keys.find? (fun k => (pyGet ex k).isNone) with
    | some k =>
      .error s!"example {no + 1} does not have the variable {k} in the definition"
    | none =>
      if (pyGet ex output_key).isNone then
        .error s!"example {no + 1} does not have the variable {output_key} in the definition"
      else if pyLower output_type = "json" then
        match pyGet ex output_key with
        | some (Json.str s) =>
          if (jsonLoads s).isNone then
            .error s!"{output_key} in example {no + 1} is not in valid json format"
          else checkExamples input_keys output_key output_type (no + 1) rest
        | _ => checkExamples input_keys output_key output_type (no + 1) rest
      else checkExamples input_keys output_key output_type (no + 1) rest

/-- Construction of `Prompt`: pydantic runs `validate_prompt` (a model
validator) and construction fails with its `ValueError` when a check
fails. -/
def mkPrompt (p : Prompt) : Except String Prompt :=
  if p.instruction = "" then .error "instruction cannot be empty"
  else if p.input_keys = [] then .error "input_keys cannot be empty"
  else if p.output_key = "" then .error "output_key cannot be empty"
  else
    match checkExamples p.input_keys p.output_key p.output_type 0 p.examples with
    | .ok _ => .ok p
    | .error e => .error e

/-- Embedding of `Prompt.to_string`: instruction, escaped contract block, examples with
fenced JSON values, then the task section with substitution slots. -/
def Prompt.to_string (p : Prompt) : String :=
  let prompt_elements := [p.instruction] ++
    (if p.output_format_instruction ≠ "" then
      ["\n" ++ ((p.output_format_instruction.replace "\x7b" "\x7b\x7b").replace
        "\x7d" "\x7d\x7d")]
    else [])
  let s := String.intercalate "\n" prompt_elements ++ "\n"
  let s := s ++
    (if !p.examples.isEmpty then
      "\nExamples:\n" ++ String.join (p.examples.map fun ex =>
        String.join (ex.map fun kv =>
          let is_json : Bool := match kv.2 with
            | Json.obj _ => true
            | Json.arr _ => true
            | _ => false
          let value := jsonDump kv.2
          let value := if pyLower p.output_type = "json" then
              (value.replace "\x7b" "\x7b\x7b").replace "\x7d" "\x7d\x7d"
            else value
          if is_json then "\n" ++ kv.1 ++ ": ```" ++ value ++ "```"
          else "\n" ++ kv.1 ++ ": " ++ value) ++ "\n")
    else "")
  let s := s ++ "\nYour actual task:\n"
  let s := s ++
    (if p.input_keys ≠ [] then
      String.join (p.input_keys.map fun key =>
        "\n" ++ key ++ ": \x7b" ++ key ++ "\x7d")
    else "")
  let s := s ++ (if p.output_key ≠ "" then "\n" ++ p.output_key ++ ": \n" else "")
  s

/-- Python `set(xs) != set(ys)` is the negation of this. -/
def listSetEq (xs ys : List String) : Bool :=
  xs.all (fun x => ys.contains x) && ys.all (fun y => xs.contains y)

/-- Embedding of `str.format` over a template whose slots are plain names: `\x7b\x7b`
and `\x7d\x7d` unescape to single braces, `\x7bkey\x7d` is replaced by the
argument, a missing key (`KeyError`) or stray brace (`ValueError`) fails. -/
def pyFormatAux (args : List (String × String)) : Nat → List Char → Option (List Char)
  | 0, _ => none
  | _, [] => some []
  | fuel + 1, c :: cs =>
    if c = '\x7b' then
      match cs with
      | c2 :: cs' =>
        if c2 = '\x7b' then (pyFormatAux args fuel cs').map (c :: ·)
        else
          let key := (c2 :: cs').takeWhile (fun ch => ch ≠ '\x7d')
          match (c2 :: cs').dropWhile (fun ch => ch ≠ '\x7d') with
          | _ :: rest =>
            match args.find? (fun kv => kv.1 == String.mk key) with
            | some kv => (pyFormatAux args fuel rest).map (kv.2.data ++ ·)
            | none => none
          | [] => none
      | [] => none
    else if c = '\x7d' then
      match cs with
      | c2 :: cs' =>
        if c2 = '\x7d' then (pyFormatAux args fuel cs').map (c :: ·)
        else none
      | [] => none
    else (pyFormatAux args fuel cs).map (c :: ·)

def pyFormat (template : String) (args : List (String × String)) : Option String :=
  (pyFormatAux args (template.length + 1) template.data).map String.mk

/-- Embedding of `Prompt.format`: the key-set guard, then `json.dumps` re-serialization
of string-typed values, then `str.format` over `to_string`. -/
def Prompt.format (p : Prompt) (kwargs : List (String × Json)) :
    Except PyErr PromptValue :=
  if !(listSetEq p.input_keys (kwargs.map (·.1))) then
    .error (.promptArgumentError p.input_keys (kwargs.map (·.1)))
  else
    let args := kwargs.map fun kv =>
      match kv.2 with
      | Json.str s => (kv.1, jsonDump (Json.str s))
      | v => (kv.1, pyStr v)
    match pyFormat (Prompt.to_string p) args with
    | some out => .ok ⟨out⟩
    | none => .error .keyError

/-- The declared contract of the repository's question-generation prompt
(`QuestionList`): a JSON object whose single `questions` field is an array
of strings. -/
def questionListContract : Json → Bool
  | Json.obj [("questions", Json.arr xs)] =>
    xs.all fun x =>
      match x with
      | Json.str _ => true
      | _ => false
  | _ => false

/-- Written from the spec's words (§3): "if output kind is `structured`,
every example's output value must itself be valid structured data under
the same contract" — every example output, decoded if it is a string, must
satisfy the declared contract. -/
def outputsConform (contract : Json → Bool) (p : Prompt) : Bool :=
  p.examples.all fun ex =>
    match pyGet ex p.output_key with
    | some (Json.str s) =>
      match jsonLoads s with
      | some j => contract j
      | none => false
    | some j => contract j
    | none => false

/-! ## converter.py — `Converter.add_documents`

The LLM is the abstract stream `llm : Nat → String` (`llm c` is the text
of the `(c+1)`-st completion consumed by the run); the langchain
`PydanticOutputParser` base parsers for the two schemas are the abstract
`parseQL` (a `QuestionList`, i.e. its `questions` list) and `parseQA`
(a `QuestionsAnswerablity`, i.e. a list of verdicts); the vector store
simply receives the final batch, which the embedding returns alongside the
count.  Prompt construction is pure string building whose key sets match
their specs by construction, and the abstract stream is indexed by call
count alone, so the prompt strings do not appear here. -/

/-- One answerability verdict (`QuestionAnswerablity`). -/
structure QA where
  question : String
  explanation : String
  relevant : Int
  deriving DecidableEq, Inhabited, Repr

/-- One entry of `QuestionsAnswerablity.dicts()` (pydantic `model_dump`). -/
def QA.dicts (q : QA) : Dict Val :=
  [("question", Val.str q.question), ("explanation", Val.str q.explanation),
   ("relevant", Val.int q.relevant)]

/-- Embedding of `QuestionsAnswerablity.model_validate` on one entry: the three declared
fields must be present with their declared types. -/
def qaValidate (d : Dict Val) : Option QA :=
  match pyGet d "question", pyGet d "explanation", pyGet d "relevant" with
  | some (Val.str q), some (Val.str e), some (Val.int r) => some ⟨q, e, r⟩
  | _, _, _ => none

/-- Embedding of `QuestionsAnswerablity.model_validate` (`none` = `ValidationError`). -/
def qasValidate (l : List (Dict Val)) : Option (List QA) := l.mapM qaValidate

/-- A stored item: `Document` with `page_content` the question text and
metadata context the source document. -/
structure Doc where
  page_content : String
  metadata_context : String
  deriving DecidableEq, Repr

/-- The pipeline of `add_documents` up to and including
`QuestionsAnswerablity.model_validate`: question generation and parse
(budget `max_retries`), `reproducibility` answerability completions each
parsed with budget `1`, dropping of failed parses, ensembling over
`relevant`, revalidation.  `.error` values are the Python exceptions the
respective stages raise: `questions.dicts()` on `None` and
`[].root` are `AttributeError`s, `inputs[0]` on an empty ensembler input
an `IndexError`, a failed revalidation a pydantic `ValidationError`. -/
def pipelineAgg (llm : Nat → String) (parseQL : String → Option (List String))
    (parseQA : String → Option (List QA)) (max_retries reproducibility : Nat) :
    Except PyErr (List QA) :=
  match parseRetry parseQL llm (llm 0) 1 max_retries with
  | (none, _) => .error .attributeError
  | (some _questions, calls1) =>
    let texts := (List.range reproducibility).map fun i => llm (calls1 + i)
    let calls2 := calls1 + reproducibility
    let parsed := (texts.foldl (fun acc text =>
      let r := parseRetry parseQA llm text acc.2 1
      (acc.1 ++ [r.1], r.2)) (([] : List (Option (List QA))), calls2)).1
    let answerablity_list := (parsed.filterMap id).map fun qas => qas.map QA.dicts
    if answerablity_list.isEmpty then
      .error .attributeError
    else
      match from_discrete answerablity_list "relevant" with
      | none => .error .indexError
      | some agg =>
        match qasValidate agg with
        | none => .error .validationError
        | some qa_list => .ok qa_list

/-- Embedding of `Converter.add_documents`: run the pipeline, keep the aggregated
verdicts with `relevant == 1`, build one stored document per accepted
question, hand the batch to the vector store in one call (the second
component) and return its length. -/
def add_documents (llm : Nat → String) (parseQL : String → Option (List String))
    (parseQA : String → Option (List QA)) (max_retries reproducibility : Nat)
    (document : String) : Except PyErr (Nat × List Doc) :=
  match pipelineAgg llm parseQL parseQA max_retries reproducibility with
  | .error e => .error e
  | .ok qa_list =>
    let document_list := (qa_list.filter fun q => q.relevant == 1).map
      fun q => Doc.mk q.question document
    .ok (document_list.length, document_list)

/-! ## Theorems -/

/-- A completion the base parser already accepts is returned at once:
no `llm.generate` call is issued (the call counter is unchanged). -/
lemma parseRetry_of_parse0_some (parse0 : String → Option O) (llm : Nat → String)
    (result : String) (calls k : Nat) (output : O)
    (h : parse0 result = some output) :
    parseRetry parse0 llm result calls k = (some output, calls) := by
  cases k <;> simp [parseRetry, h]

/-- If the original completion and all `k` repaired completions are malformed,
the recursion bottoms out at budget `0`, having issued exactly `k` repair
calls, and returns `none`. -/
lemma parseRetry_all_fail (parse0 : String → Option O) (llm : Nat → String) :
    ∀ (k : Nat) (result : String) (calls : Nat),
    parse0 result = none →
    (∀ m, m < k → parse0 (llm (calls + m)) = none) →
    parseRetry parse0 llm result calls k = (none, calls + k)
  | 0, result, calls, h0, _ => by simp [parseRetry, h0]
  | k + 1, result, calls, h0, hall => by
    rw [parseRetry, h0]
    have ih := parseRetry_all_fail parse0 llm k (llm calls) (calls + 1)
      (by have := hall 0 (Nat.succ_pos k); simpa using this)
      (fun m hm => by
        have := hall (m + 1) (by omega)
        simpa [Nat.add_assoc, Nat.add_comm 1 m] using this)
    rw [ih]
    simp [Nat.add_assoc, Nat.add_comm 1 k]

/-- If the original completion is malformed, the first `m` repaired
completions are malformed and the `(m+1)`-st is valid (with `m < k`, i.e.
within budget), the recursion succeeds after exactly `m + 1` repair calls. -/
lemma parseRetry_jth_ok (parse0 : String → Option O) (llm : Nat → String) :
    ∀ (k m : Nat) (result : String) (calls : Nat) (output : O),
    m < k →
    parse0 result = none →
    (∀ m', m' < m → parse0 (llm (calls + m')) = none) →
    parse0 (llm (calls + m)) = some output →
    parseRetry parse0 llm result calls k = (some output, calls + m + 1)
  | 0, m, _, _, _, hm, _, _, _ => absurd hm (Nat.not_lt_zero m)
  | k + 1, 0, result, calls, output, _, h0, _, hok => by
    rw [parseRetry, h0]
    rw [parseRetry_of_parse0_some parse0 llm (llm calls) (calls + 1) k output
      (by simpa using hok)]
  | k + 1, m + 1, result, calls, output, hm, h0, hmid, hok => by
    rw [parseRetry, h0]
    have ih := parseRetry_jth_ok parse0 llm k m (llm calls) (calls + 1) output
      (by omega)
      (by have := hmid 0 (Nat.succ_pos m); simpa using this)
      (fun m' hm' => by
        have := hmid (m' + 1) (by omega)
        simpa [Nat.add_assoc, Nat.add_comm 1 m'] using this)
      (by rw [show calls + 1 + m = calls + (m + 1) by omega]; exact hok)
    rw [ih]
    simp [Nat.add_assoc, Nat.add_comm 1 m]

/-- Claim C1. For every raw completion `result` already accepted by the schema
parser, `parse` returns the structured value with zero repair calls; for a
malformed completion and budget `k ≥ 0`, `parse` issues at most `k` repair
calls: it issues exactly `k` and returns `None` when all `k` repaired
completions are still malformed, and issues exactly `j = m + 1 ≤ k` calls
when the `j`-th repaired completion is the first valid one. -/
theorem parse_retry_call_budget (parse0 : String → Option O) (llm : Nat → String)
    (result : String) (calls k : Nat) :
    (∀ output, parse0 result = some output →
      parseRetry parse0 llm result calls k = (some output, calls)) ∧
    (parse0 result = none →
      (∀ m, m < k → parse0 (llm (calls + m)) = none) →
      parseRetry parse0 llm result calls k = (none, calls + k)) ∧
    (∀ m output, m < k →
      parse0 result = none →
      (∀ m', m' < m → parse0 (llm (calls + m')) = none) →
      parse0 (llm (calls + m)) = some output →
      parseRetry parse0 llm result calls k = (some output, calls + m + 1)) :=
  ⟨fun output h => parseRetry_of_parse0_some parse0 llm result calls k output h,
   fun h0 hall => parseRetry_all_fail parse0 llm k result calls h0 hall,
   fun m output hm h0 hmid hok =>
     parseRetry_jth_ok parse0 llm k m result calls output hm h0 hmid hok⟩

/-- Concrete run of claim C1: base parser accepts only `"ok"`, the repair
stream produces `"bad"` then `"ok"`, budget `3`: the second repaired
completion is valid, so exactly `2` repair calls are issued. -/
theorem parse_retry_call_budget_witness :
    parseRetry (fun s => if s = "ok" then some s else none)
      (fun n => if n = 1 then "ok" else "bad") "bad" 0 3 = (some "ok", 2) :=
  (parse_retry_call_budget (fun s => if s = "ok" then some s else none)
      (fun n => if n = 1 then "ok" else "bad") "bad" 0 3).2.2 1 "ok"
    (by decide)
    (by decide)
    (fun m' hm' => by
      have : m' = 0 := by omega
      subst this; decide)
    (by decide)

/-- With a non-negative budget `k`, the `int`-typed recursion returns within
`k + 1` nested attempts and agrees with the structurally terminating model. -/
lemma parseRetryZ_nonneg (parse0 : String → Option O) (llm : Nat → String) :
    ∀ (k : Nat) (result : String) (calls : Nat),
    parseRetryZ parse0 llm (k + 1) result calls (k : Int) =
      some (parseRetry parse0 llm result calls k)
  | 0, result, calls => by
    rw [parseRetryZ, parseRetry]
    cases parse0 result <;> simp
  | k + 1, result, calls => by
    rw [parseRetryZ, parseRetry]
    cases parse0 result with
    | some output => rfl
    | none =>
      have hne : ((k : Int) + 1) ≠ 0 := by omega
      have hsub : ((k : Int) + 1) - 1 = (k : Int) := by ring
      simp only [Nat.cast_add, Nat.cast_one, hne, hsub, if_pos, ne_eq,
        not_false_eq_true, if_true]
      exact parseRetryZ_nonneg parse0 llm k (llm calls) (calls + 1)

/-- With a negative budget and a collaborator whose repaired completions all
stay malformed, the budget never equals `0`, so no recursion depth suffices:
the base case is never reached. -/
lemma parseRetryZ_neg_diverges (parse0 : String → Option O) (llm : Nat → String) :
    ∀ (fuel : Nat) (result : String) (calls : Nat) (maxRetries : Int),
    maxRetries < 0 →
    parse0 result = none →
    (∀ n, parse0 (llm n) = none) →
    parseRetryZ parse0 llm fuel result calls maxRetries = none
  | 0, _, _, _, _, _, _ => rfl
  | fuel + 1, result, calls, maxRetries, hneg, h0, hstream => by
    rw [parseRetryZ, h0]
    have hne : maxRetries ≠ 0 := by omega
    simp only [ne_eq, hne, not_false_eq_true, if_true]
    exact parseRetryZ_neg_diverges parse0 llm fuel (llm calls) (calls + 1)
      (maxRetries - 1) (by omega) (hstream calls) hstream

/-- Claim C10. The repair recursion terminates for every initial
`max_retries = k ≥ 0` — within recursion depth `k + 1`, because each
recursive call decrements the budget and the base case fires exactly at
budget `0` — whereas for a negative initial `max_retries` and a collaborator
that keeps returning malformed completions, the budget never equals `0` and
no recursion depth reaches the base case. -/
theorem parse_retry_termination (parse0 : String → Option O) (llm : Nat → String) :
    (∀ (k : Nat) (result : String) (calls : Nat),
      parseRetryZ parse0 llm (k + 1) result calls (k : Int) =
        some (parseRetry parse0 llm result calls k)) ∧
    (∀ (fuel : Nat) (result : String) (calls : Nat) (maxRetries : Int),
      maxRetries < 0 →
      parse0 result = none →
      (∀ n, parse0 (llm n) = none) →
      parseRetryZ parse0 llm fuel result calls maxRetries = none) :=
  ⟨fun k result calls => parseRetryZ_nonneg parse0 llm k result calls,
   fun fuel result calls maxRetries hneg h0 hstream =>
     parseRetryZ_neg_diverges parse0 llm fuel result calls maxRetries hneg h0 hstream⟩

/-- Concrete run of claim C10: with an always-failing base parser, budget `2`
returns `None` after its two repair calls, while budget `-1` has not
returned even after `50` nested attempts. -/
theorem parse_retry_termination_witness :
    parseRetryZ (fun _ => (none : Option String)) (fun _ => "junk") 3 "bad" 0
        (2 : Int) = some (none, 2) ∧
    parseRetryZ (fun _ => (none : Option String)) (fun _ => "junk") 50 "bad" 0
        (-1 : Int) = none := by
  constructor
  · have h := (parse_retry_termination (fun _ => (none : Option String))
      (fun _ => "junk")).1 2 "bad" 0
    rw [show ((2 : Nat) : Int) = (2 : Int) by norm_num] at h
    rw [h]
    decide
  · exact (parse_retry_termination (fun _ => (none : Option String))
      (fun _ => "junk")).2 50 "bad" 0 (-1) (by norm_num) rfl (fun _ => rfl)

lemma find?_map_set (k : String) (v : V) :
    ∀ d : Dict V,
    (d.map (fun p => if p.1 == k then (k, v) else p)).find? (fun p => p.1 == k)
      = (d.find? (fun p => p.1 == k)).map (fun _ => (k, v))
  | [] => rfl
  | p :: d => by
    by_cases hp : (p.1 == k) = true
    · rw [List.map_cons, if_pos hp,
        @List.find?_cons_of_pos _ (fun q => q.1 == k) p d hp,
        @List.find?_cons_of_pos _ (fun q => q.1 == k) (k, v) _ (by simp)]
      rfl
    · rw [List.map_cons, if_neg hp,
        @List.find?_cons_of_neg _ (fun q => q.1 == k) p _ hp,
        @List.find?_cons_of_neg _ (fun q => q.1 == k) p d hp]
      exact find?_map_set k v d

lemma find?_map_set_ne (k k' : String) (v : V) (h : k' ≠ k) :
    ∀ d : Dict V,
    (d.map (fun p => if p.1 == k then (k, v) else p)).find? (fun p => p.1 == k')
      = d.find? (fun p => p.1 == k')
  | [] => rfl
  | p :: d => by
    by_cases hp : (p.1 == k) = true
    · have hk : p.1 = k := by simpa using hp
      have hne : ¬ (((k, v) : String × V).1 == k') = true := by
        simpa using Ne.symm h
      have hne' : ¬ (p.1 == k') = true := by rw [hk]; simpa using Ne.symm h
      rw [List.map_cons, if_pos hp,
        @List.find?_cons_of_neg _ (fun q => q.1 == k') (k, v) _ hne,
        @List.find?_cons_of_neg _ (fun q => q.1 == k') p d hne']
      exact find?_map_set_ne k k' v h d
    · rw [List.map_cons, if_neg hp]
      by_cases hq : (p.1 == k') = true
      · rw [@List.find?_cons_of_pos _ (fun q => q.1 == k') p _ hq,
          @List.find?_cons_of_pos _ (fun q => q.1 == k') p d hq]
      · rw [@List.find?_cons_of_neg _ (fun q => q.1 == k') p _ hq,
          @List.find?_cons_of_neg _ (fun q => q.1 == k') p d hq]
        exact find?_map_set_ne k k' v h d

lemma pyGet_pySet_self (d : Dict V) (k : String) (v : V) :
    pyGet (pySet d k v) k = some v := by
  unfold pySet
  by_cases h : (d.find? (fun p => p.1 == k)).isSome
  · rw [if_pos h, pyGet, find?_map_set]
    obtain ⟨q, hq⟩ := Option.isSome_iff_exists.mp h
    rw [hq]
    rfl
  · rw [if_neg h, pyGet, List.find?_append]
    have hnone : d.find? (fun p => p.1 == k) = none :=
      Option.not_isSome_iff_eq_none.mp h
    simp [hnone, List.find?]

lemma pyGet_pySet_ne (d : Dict V) (k k' : String) (v : V) (h : k' ≠ k) :
    pyGet (pySet d k v) k' = pyGet d k' := by
  unfold pySet
  by_cases hs : (d.find? (fun p => p.1 == k)).isSome
  · rw [if_pos hs, pyGet, pyGet, find?_map_set_ne k k' v h]
  · rw [if_neg hs, pyGet, pyGet, List.find?_append]
    have hne : ¬ (((k, v) : String × V).1 == k') = true := by
      simpa using Ne.symm h
    simp [List.find?, hne]

lemma amStep_some (c : V → Nat) (b k : V) :
    amStep c (some b) k = if c b < c k then some k else some b := rfl

lemma foldl_amStep_isSome (c : V → Nat) :
    ∀ (l : List V) (b : V), (l.foldl (amStep c) (some b)).isSome = true
  | [], _ => rfl
  | k :: t, b => by
    rw [List.foldl_cons, amStep_some]
    split
    · exact foldl_amStep_isSome c t _
    · exact foldl_amStep_isSome c t _

/-- Folding `amStep` from `some b` over `l` yields the first element of
`b :: l` whose `c`-value is maximal in `b :: l`. -/
lemma foldl_amStep_eq_find? (c : V → Nat) :
    ∀ (l : List V) (b : V),
    l.foldl (amStep c) (some b) =
      (b :: l).find? (fun v => (b :: l).all (fun w => decide (c w ≤ c v)))
  | [], b => by
    rw [List.foldl_nil,
      @List.find?_cons_of_pos _ (fun v => [b].all (fun w => decide (c w ≤ c v))) b []
        (by simp)]
  | k :: t, b => by
    rw [List.foldl_cons, amStep_some]
    by_cases hlt : c b < c k
    · rw [if_pos hlt, foldl_amStep_eq_find? c t k]
      have hfun : (fun v => (k :: t).all (fun w => decide (c w ≤ c v)))
          = (fun v => (b :: k :: t).all (fun w => decide (c w ≤ c v))) := by
        funext v
        by_cases hkv : c k ≤ c v
        · have hbv : c b ≤ c v := by omega
          simp [List.all_cons, hkv, hbv]
        · simp [List.all_cons, hkv]
      rw [hfun]
      have hb : ¬ ((fun v => (b :: k :: t).all (fun w => decide (c w ≤ c v))) b = true) := by
        simp only [List.all_cons, Bool.and_eq_true, decide_eq_true_eq]
        intro hcontra
        omega
      rw [@List.find?_cons_of_neg _
        (fun v => (b :: k :: t).all (fun w => decide (c w ≤ c v))) b (k :: t) hb]
    · rw [if_neg hlt, foldl_amStep_eq_find? c t b]
      have hfun : (fun v => (b :: t).all (fun w => decide (c w ≤ c v)))
          = (fun v => (b :: k :: t).all (fun w => decide (c w ≤ c v))) := by
        funext v
        by_cases hbv : c b ≤ c v
        · have hkv : c k ≤ c v := by omega
          simp [List.all_cons, hbv, hkv]
        · simp [List.all_cons, hbv]
      rw [hfun]
      by_cases hb : (fun v => (b :: k :: t).all (fun w => decide (c w ≤ c v))) b = true
      · rw [@List.find?_cons_of_pos _
            (fun v => (b :: k :: t).all (fun w => decide (c w ≤ c v))) b (t) hb,
          @List.find?_cons_of_pos _
            (fun v => (b :: k :: t).all (fun w => decide (c w ≤ c v))) b (k :: t) hb]
      · have hb' : ¬ (c b ≤ c b ∧ c k ≤ c b ∧ ∀ w ∈ t, c w ≤ c b) := by
          simpa [List.all_cons, List.all_eq_true] using hb
        push_neg at hb'
        obtain ⟨w, hwt, hcw⟩ := hb' le_rfl (by omega)
        have hPk : ¬ ((fun v => (b :: k :: t).all (fun w => decide (c w ≤ c v))) k
            = true) := by
          simp only [List.all_cons, Bool.and_eq_true, decide_eq_true_eq,
            List.all_eq_true]
          rintro ⟨-, -, hall⟩
          have := hall w hwt
          omega
        rw [@List.find?_cons_of_neg _
            (fun v => (b :: k :: t).all (fun w => decide (c w ≤ c v))) b t hb,
          @List.find?_cons_of_neg _
            (fun v => (b :: k :: t).all (fun w => decide (c w ≤ c v))) b (k :: t) hb,
          @List.find?_cons_of_neg _
            (fun v => (b :: k :: t).all (fun w => decide (c w ≤ c v))) k t hPk]

lemma foldlKeys_eq_append [DecidableEq V] :
    ∀ (vs acc : List V), ∃ rest,
      vs.foldl (fun acc v => if v ∈ acc then acc else acc ++ [v]) acc = acc ++ rest
  | [], acc => ⟨[], by simp⟩
  | v :: vs, acc => by
    rw [List.foldl_cons]
    by_cases hv : v ∈ acc
    · rw [if_pos hv]
      exact foldlKeys_eq_append vs acc
    · rw [if_neg hv]
      obtain ⟨rest, hrest⟩ := foldlKeys_eq_append vs (acc ++ [v])
      exact ⟨v :: rest, by simpa using hrest⟩

/-- Since dedup-by-first-occurrence keeps the first occurrence of every
value in place and only drops repeats, the first hit of any value-level
predicate is unchanged. -/
lemma foldlKeys_find? [DecidableEq V] (p : V → Bool) :
    ∀ (vs acc : List V), (∀ a ∈ acc, p a = false) →
      (vs.foldl (fun acc v => if v ∈ acc then acc else acc ++ [v]) acc).find? p
        = vs.find? p
  | [], acc, hacc => by
    rw [List.foldl_nil, List.find?_nil, List.find?_eq_none]
    intro x hx
    simp [hacc x hx]
  | v :: vs, acc, hacc => by
    rw [List.foldl_cons]
    by_cases hp : p v = true
    · have hv : v ∉ acc := fun hmem => by simp [hacc v hmem] at hp
      rw [if_neg hv]
      obtain ⟨rest, hrest⟩ := foldlKeys_eq_append vs (acc ++ [v])
      rw [hrest, List.append_assoc, List.find?_append,
        (List.find?_eq_none).mpr (fun x hx => by simp [hacc x hx]),
        Option.none_or, List.find?_append,
        @List.find?_cons_of_pos _ p v [] hp,
        @List.find?_cons_of_pos _ p v vs hp]
      rfl
    · rw [@List.find?_cons_of_neg _ p v vs hp]
      by_cases hv : v ∈ acc
      · rw [if_pos hv]
        exact foldlKeys_find? p vs acc hacc
      · rw [if_neg hv]
        refine foldlKeys_find? p vs (acc ++ [v]) ?_
        intro a ha
        rcases List.mem_append.mp ha with h | h
        · exact hacc a h
        · simp only [List.mem_singleton] at h
          subst h
          simpa using hp

lemma mem_foldlKeys [DecidableEq V] :
    ∀ (vs acc : List V) (x : V),
      x ∈ vs.foldl (fun acc v => if v ∈ acc then acc else acc ++ [v]) acc
        ↔ x ∈ acc ∨ x ∈ vs
  | [], acc, x => by simp
  | v :: vs, acc, x => by
    rw [List.foldl_cons]
    by_cases hv : v ∈ acc
    · rw [if_pos hv, mem_foldlKeys vs acc x]
      constructor
      · rintro (h | h)
        · exact Or.inl h
        · exact Or.inr (List.mem_cons_of_mem v h)
      · rintro (h | h)
        · exact Or.inl h
        · rcases List.mem_cons.mp h with rfl | h
          · exact Or.inl hv
          · exact Or.inr h
    · rw [if_neg hv, mem_foldlKeys vs (acc ++ [v]) x]
      simp only [List.mem_append, List.mem_singleton, List.mem_cons]
      tauto

lemma mem_counterKeys [DecidableEq V] (vs : List V) (x : V) :
    x ∈ counterKeys vs ↔ x ∈ vs := by
  unfold counterKeys
  rw [mem_foldlKeys vs [] x]
  simp

lemma all_counterKeys [DecidableEq V] (vs : List V) (q : V → Bool) :
    (counterKeys vs).all q = vs.all q := by
  by_cases hv : vs.all q = true
  · have hc : (counterKeys vs).all q = true :=
      List.all_eq_true.mpr
        (fun x hx => (List.all_eq_true.mp hv) x ((mem_counterKeys vs x).mp hx))
    rw [hc, hv]
  · have hc : ¬ (counterKeys vs).all q = true := by
      rw [List.all_eq_true] at hv ⊢
      intro hall
      exact hv (fun x hx => hall x ((mem_counterKeys vs x).mpr hx))
    rw [Bool.not_eq_true] at hv hc
    rw [hv, hc]

lemma counterKeys_eq_nil [DecidableEq V] (vs : List V)
    (h : counterKeys vs = []) : vs = [] := by
  cases vs with
  | nil => rfl
  | cons v vs =>
    have : v ∈ counterKeys (v :: vs) :=
      (mem_counterKeys (v :: vs) v).mpr (List.mem_cons_self v vs)
    rw [h] at this
    exact absurd this (List.not_mem_nil v)

/-- The head key of `most_common()` is exactly the spec's majority value:
the most frequent value of `vs`, ties resolved to the value seen first. -/
lemma topVerdict_eq_majoritySpec [DecidableEq V] (vs : List V) :
    topVerdict vs = majoritySpec vs := by
  unfold topVerdict majoritySpec
  cases hck : counterKeys vs with
  | nil =>
    have : vs = [] := counterKeys_eq_nil vs hck
    subst this
    rfl
  | cons b t =>
    rw [List.foldl_cons]
    show t.foldl (amStep (fun v => vs.count v)) (amStep _ none b) = _
    have hstep : amStep (fun v => vs.count v) none b = some b := rfl
    rw [hstep, foldl_amStep_eq_find? (fun v => vs.count v) t b]
    have hfun : (fun v => (b :: t).all (fun w => decide (vs.count w ≤ vs.count v)))
        = (fun v => vs.all (fun w => decide (vs.count w ≤ vs.count v))) := by
      funext v
      rw [← hck, all_counterKeys]
    rw [hfun, ← hck]
    unfold counterKeys
    exact foldlKeys_find? _ vs [] (by simp)

lemma topVerdict_isSome [DecidableEq V] (vs : List V) (h : vs ≠ []) :
    (topVerdict vs).isSome = true := by
  unfold topVerdict
  cases hck : counterKeys vs with
  | nil => exact absurd (counterKeys_eq_nil vs hck) h
  | cons b t =>
    rw [List.foldl_cons]
    show (t.foldl (amStep (fun v => vs.count v)) (amStep _ none b)).isSome = true
    exact foldl_amStep_isSome (fun v => vs.count v) t b

lemma mapM_option_of_forall {α β : Type} {f : α → Option β} {g : α → β} :
    ∀ l : List α, (∀ x ∈ l, f x = some (g x)) → l.mapM f = some (l.map g)
  | [], _ => rfl
  | x :: l, h => by
    rw [List.mapM_cons, h x (List.mem_cons_self x l),
      mapM_option_of_forall l (fun y hy => h y (List.mem_cons_of_mem x hy))]
    rfl

/-- Computation of `from_discrete` on a well-formed matrix of `N ≥ 2`
equal-length attr-carrying verdict lists: the result is defined, and
its `i`-th entry is the first list's `i`-th entry with the voting attr
overwritten by the head key of `most_common` over column `i`. -/
lemma from_discrete_good [DecidableEq V] [Inhabited V]
    (first : List (Dict V)) (rest : List (List (Dict V))) (attr : String)
    (hN : rest ≠ [])
    (hlen : ∀ l ∈ first :: rest, l.length = first.length)
    (hattr : ∀ l ∈ first :: rest, ∀ d ∈ l, (pyGet d attr).isSome = true) :
    from_discrete (first :: rest) attr =
      some ((List.range first.length).map fun i =>
        pySet (first.getD i ([] : Dict V)) attr
          ((topVerdict ((first :: rest).map
            fun l => dget (l.getD i []) attr)).iget)) := by
  have h1 : ((first :: rest).all
      fun item => item.length == ((first :: rest).headD []).length) = true := by
    rw [List.all_eq_true]
    intro l hl
    rw [List.headD_cons, beq_iff_eq]
    exact hlen l hl
  have h2 : ((first :: rest).all fun input =>
      input.all fun item => (pyGet item attr).isSome) = true := by
    rw [List.all_eq_true]
    intro l hl
    rw [List.all_eq_true]
    intro d hd
    exact hattr l hl d hd
  have h3 : ((first :: rest).length == 1) = false := by
    rw [beq_eq_false_iff_ne]
    simp only [List.length_cons, ne_eq, Nat.add_left_eq_self]
    simpa [List.length_eq_zero] using hN
  rw [from_discrete, h1, h2, h3]
  simp only [Bool.not_true, Bool.false_eq_true, if_false]
  have hL : ∀ l ∈ first :: rest, ∀ i, i < first.length →
      l.get? i = some (l.getD i ([] : Dict V)) := by
    intro l hl i hi
    have hi' : i < l.length := by rw [hlen l hl]; exact hi
    rw [List.get?_eq_get hi', List.getD_eq_getElem l [] hi', List.get_eq_getElem]
  refine mapM_option_of_forall _ ?_
  intro i hi
  rw [List.mem_range] at hi
  have hfirst := hL first (List.mem_cons_self first rest) i hi
  have hinner : (first :: rest).mapM
      (fun l => (l.get? i).bind fun d => pyGet d attr) =
      some ((first :: rest).map fun l => dget (l.getD i []) attr) := by
    refine mapM_option_of_forall _ ?_
    intro l hl
    rw [hL l hl i hi]
    have hd : l.getD i ([] : Dict V) ∈ l := by
      have hi' : i < l.length := by rw [hlen l hl]; exact hi
      rw [List.getD_eq_getElem l [] hi']
      exact List.getElem_mem hi'
    obtain ⟨v, hv⟩ := Option.isSome_iff_exists.mp (hattr l hl _ hd)
    rw [Option.some_bind, hv, dget, hv, Option.iget_some]
  have hcolne : ((first :: rest).map fun l => dget (l.getD i []) attr) ≠ [] := by
    simp
  obtain ⟨top, htop⟩ := Option.isSome_iff_exists.mp
    (topVerdict_isSome _ hcolne)
  simp only [Option.bind_eq_bind]
  rw [hfirst, Option.some_bind, hinner, Option.some_bind, htop, Option.some_bind,
    Option.iget_some]

lemma getD_map_range {α : Type} (f : Nat → α) (d : α) (n i : Nat) (hi : i < n) :
    ((List.range n).map f).getD i d = f i := by
  rw [List.getD_eq_getElem _ _ (by simpa using hi), List.getElem_map,
    List.getElem_range]

/-- Claim C2. For every verdict matrix of `N ≥ 2` equal-length lists whose
entries all carry the voting attribute, `from_discrete` succeeds and, at
each index `i`, the aggregated entry's attribute value is the value with
the highest frequency among the `N` values of column `i`, ties resolving to
the value encountered first in sample order (list 0 first, then list 1, …)
— which is what `majoritySpec` expresses. -/
theorem from_discrete_majority_vote [DecidableEq V] [Inhabited V]
    (first : List (Dict V)) (rest : List (List (Dict V))) (attr : String)
    (hN : rest ≠ [])
    (hlen : ∀ l ∈ first :: rest, l.length = first.length)
    (hattr : ∀ l ∈ first :: rest, ∀ d ∈ l, (pyGet d attr).isSome = true) :
    ∃ agg, from_discrete (first :: rest) attr = some agg ∧
      agg.length = first.length ∧
      ∀ i, i < first.length →
        pyGet (agg.getD i []) attr =
          majoritySpec ((first :: rest).map fun l => dget (l.getD i []) attr) := by
  refine ⟨_, from_discrete_good first rest attr hN hlen hattr, ?_, ?_⟩
  · rw [List.length_map, List.length_range]
  · intro i hi
    rw [getD_map_range _ _ _ i hi, pyGet_pySet_self]
    have hcolne : ((first :: rest).map fun l => dget (l.getD i []) attr) ≠ [] := by
      simp
    obtain ⟨top, htop⟩ := Option.isSome_iff_exists.mp (topVerdict_isSome _ hcolne)
    rw [← topVerdict_eq_majoritySpec, htop, Option.iget_some]

/-- Concrete run of claim C2 at the spec's tie example
`[[{"relevant": 1}], [{"relevant": 0}]]`: the hypotheses hold, and the
aggregated result keeps the first list's value `1` (first-seen tie-break). -/
theorem from_discrete_majority_vote_witness :
    (∃ agg, from_discrete [[[("relevant", Val.int 1)]], [[("relevant", Val.int 0)]]]
        "relevant" = some agg ∧ agg.length = 1 ∧
      ∀ i, i < 1 →
        pyGet (agg.getD i []) "relevant" =
          majoritySpec (([[[("relevant", Val.int 1)]],
            [[("relevant", Val.int 0)]]] : List (List (Dict Val))).map
              fun l => dget (l.getD i []) "relevant")) ∧
    from_discrete [[[("relevant", Val.int 1)]], [[("relevant", Val.int 0)]]]
      "relevant" = some [[("relevant", Val.int 1)]] :=
  ⟨from_discrete_majority_vote [[("relevant", Val.int 1)]]
      [[[("relevant", Val.int 0)]]] "relevant"
      (by decide) (by decide) (by decide),
   by decide⟩

/-- Claim C5. If the lists are not all of the first list's length, or some
entry of some list lacks the voting attribute, `from_discrete` returns the
first list unchanged (and in particular does not raise). -/
theorem from_discrete_degenerate [DecidableEq V]
    (first : List (Dict V)) (rest : List (List (Dict V))) (attr : String)
    (h : (¬ ∀ l ∈ first :: rest, l.length = first.length) ∨
         (¬ ∀ l ∈ first :: rest, ∀ d ∈ l, (pyGet d attr).isSome = true)) :
    from_discrete (first :: rest) attr = some first := by
  rw [from_discrete]
  by_cases hb1 : ((first :: rest).all
      fun item => item.length == ((first :: rest).headD []).length) = true
  · have hlen : ∀ l ∈ first :: rest, l.length = first.length := by
      intro l hl
      have := List.all_eq_true.mp hb1 l hl
      simpa using this
    have hattr : ¬ ∀ l ∈ first :: rest, ∀ d ∈ l, (pyGet d attr).isSome = true := by
      rcases h with h | h
      · exact absurd hlen h
      · exact h
    have hb2 : ((first :: rest).all fun input =>
        input.all fun item => (pyGet item attr).isSome) = false := by
      rw [Bool.eq_false_iff]
      intro hall
      exact hattr fun l hl d hd =>
        List.all_eq_true.mp (List.all_eq_true.mp hall l hl) d hd
    rw [hb1, hb2]
    simp
  · rw [Bool.not_eq_true] at hb1
    rw [hb1]
    simp

/-- Concrete run of claim C5: a matrix with list lengths `1` and `0` returns
the first list unmodified. -/
theorem from_discrete_degenerate_witness :
    from_discrete [[[("relevant", Val.int 1)]], []] "relevant"
      = some [[("relevant", Val.int 1)]] :=
  from_discrete_degenerate [[("relevant", Val.int 1)]] [[]] "relevant"
    (Or.inl (by decide))

/-- Claim C8. On a well-formed matrix with `N ≥ 2` lists, every aggregated
entry agrees with the first list's entry at the same index on every
non-voting key, and its voting attribute holds the aggregated value. -/
theorem from_discrete_frame [DecidableEq V] [Inhabited V]
    (first : List (Dict V)) (rest : List (List (Dict V))) (attr : String)
    (hN : rest ≠ [])
    (hlen : ∀ l ∈ first :: rest, l.length = first.length)
    (hattr : ∀ l ∈ first :: rest, ∀ d ∈ l, (pyGet d attr).isSome = true) :
    ∃ agg, from_discrete (first :: rest) attr = some agg ∧
      agg.length = first.length ∧
      ∀ i, i < first.length →
        (∀ k, k ≠ attr → pyGet (agg.getD i []) k = pyGet (first.getD i []) k) ∧
        pyGet (agg.getD i []) attr =
          some ((topVerdict ((first :: rest).map
            fun l => dget (l.getD i []) attr)).iget) := by
  refine ⟨_, from_discrete_good first rest attr hN hlen hattr, ?_, ?_⟩
  · rw [List.length_map, List.length_range]
  · intro i hi
    rw [getD_map_range _ _ _ i hi]
    exact ⟨fun k hk => pyGet_pySet_ne _ _ _ _ hk, pyGet_pySet_self _ _ _⟩

/-- Concrete run of claim C8 at the spec's 2-of-3 example: question and
explanation are carried over from the first list's entry, the attribute is
the majority `1`. -/
theorem from_discrete_frame_witness :
    (∃ agg, from_discrete
        [[[("question", Val.str "q"), ("explanation", Val.str "e"),
            ("relevant", Val.int 1)]],
         [[("question", Val.str "q"), ("explanation", Val.str "x"),
            ("relevant", Val.int 0)]],
         [[("question", Val.str "q"), ("explanation", Val.str "y"),
            ("relevant", Val.int 1)]]] "relevant" = some agg ∧
      agg.length = 1 ∧
      ∀ i, i < 1 →
        (∀ k, k ≠ "relevant" →
          pyGet (agg.getD i []) k =
            pyGet (([[("question", Val.str "q"), ("explanation", Val.str "e"),
              ("relevant", Val.int 1)]] : List (Dict Val)).getD i []) k) ∧
        pyGet (agg.getD i []) "relevant" =
          some ((topVerdict (([[[("question", Val.str "q"),
              ("explanation", Val.str "e"), ("relevant", Val.int 1)]],
            [[("question", Val.str "q"), ("explanation", Val.str "x"),
              ("relevant", Val.int 0)]],
            [[("question", Val.str "q"), ("explanation", Val.str "y"),
              ("relevant", Val.int 1)]]] : List (List (Dict Val))).map
                fun l => dget (l.getD i []) "relevant")).iget)) ∧
    from_discrete
        [[[("question", Val.str "q"), ("explanation", Val.str "e"),
            ("relevant", Val.int 1)]],
         [[("question", Val.str "q"), ("explanation", Val.str "x"),
            ("relevant", Val.int 0)]],
         [[("question", Val.str "q"), ("explanation", Val.str "y"),
            ("relevant", Val.int 1)]]] "relevant"
      = some [[("question", Val.str "q"), ("explanation", Val.str "e"),
          ("relevant", Val.int 1)]] :=
  ⟨from_discrete_frame
      [[("question", Val.str "q"), ("explanation", Val.str "e"),
        ("relevant", Val.int 1)]]
      [[[("question", Val.str "q"), ("explanation", Val.str "x"),
        ("relevant", Val.int 0)]],
       [[("question", Val.str "q"), ("explanation", Val.str "y"),
        ("relevant", Val.int 1)]]] "relevant"
      (by decide) (by decide) (by decide),
   by decide⟩

lemma map_getD_range {α : Type} (l : List α) (d : α) :
    (List.range l.length).map (fun i => l.getD i d) = l := by
  apply List.ext_getElem (by simp)
  intro i h1 h2
  simp only [List.getElem_map, List.getElem_range, List.getD_eq_getElem l d h2]

/-- Invariant-carrying run of the aggregation loop over distinct in-range
indices whose reads the current heap still reports as the original heap
does: the returned list is exactly the first list's addresses, each visited
first-list address now holds its original dictionary with the attribute
overwritten by the majority of its original column, and no other address
changed. -/
lemma aggLoop_spec [DecidableEq V] [Inhabited V]
    (heap : Heap V) (first : List Nat) (rest : List (List Nat)) (attr : String)
    (hlen : ∀ l ∈ first :: rest, l.length = first.length)
    (hattr : ∀ l ∈ first :: rest, ∀ a ∈ l, (pyGet (heap a) attr).isSome = true)
    (hnoalias : ∀ l ∈ first :: rest, ∀ i j, i < first.length → j < first.length →
      i ≠ j → l.getD i 0 ≠ first.getD j 0) :
    ∀ (is : List Nat) (heap₀ : Heap V),
    (∀ i ∈ is, i < first.length) →
    is.Nodup →
    (∀ l ∈ first :: rest, ∀ i ∈ is, heap₀ (l.getD i 0) = heap (l.getD i 0)) →
    ∃ heap₁, aggLoop (first :: rest) attr heap₀ is =
        some (is.map (fun i => first.getD i 0), heap₁) ∧
      (∀ i ∈ is, heap₁ (first.getD i 0) =
        pySet (heap (first.getD i 0)) attr
          ((topVerdict ((first :: rest).map
            fun l => dget (heap (l.getD i 0)) attr)).iget)) ∧
      (∀ a, (∀ i ∈ is, a ≠ first.getD i 0) → heap₁ a = heap₀ a)
  | [], heap₀, _, _, _ =>
    ⟨heap₀, rfl, fun i hi => absurd hi (List.not_mem_nil i),
      fun _ _ => rfl⟩
  | i :: is, heap₀, hmem, hnd, hagree => by
    have hi : i < first.length := hmem i (List.mem_cons_self i is)
    have hget : ∀ l ∈ first :: rest, l.get? i = some (l.getD i 0) := by
      intro l hl
      have hi' : i < l.length := by rw [hlen l hl]; exact hi
      rw [List.get?_eq_get hi', List.getD_eq_getElem l 0 hi', List.get_eq_getElem]
    have hinner : (first :: rest).mapM
        (fun l => (l.get? i).bind fun a => pyGet (heap₀ a) attr) =
        some ((first :: rest).map fun l => dget (heap (l.getD i 0)) attr) := by
      refine mapM_option_of_forall _ ?_
      intro l hl
      rw [hget l hl, Option.some_bind,
        hagree l hl i (List.mem_cons_self i is)]
      have hd : l.getD i 0 ∈ l := by
        have hi' : i < l.length := by rw [hlen l hl]; exact hi
        rw [List.getD_eq_getElem l 0 hi']
        exact List.getElem_mem hi'
      obtain ⟨v, hv⟩ := Option.isSome_iff_exists.mp (hattr l hl _ hd)
      rw [hv, dget, hv, Option.iget_some]
    have hcolne : ((first :: rest).map fun l => dget (heap (l.getD i 0)) attr)
        ≠ [] := by simp
    obtain ⟨top, htop⟩ := Option.isSome_iff_exists.mp (topVerdict_isSome _ hcolne)
    rw [List.nodup_cons] at hnd
    have hagree' : ∀ l ∈ first :: rest, ∀ j ∈ is,
        (fun a => if a = first.getD i 0
            then pySet (heap₀ (first.getD i 0)) attr top else heap₀ a)
          (l.getD j 0) = heap (l.getD j 0) := by
      intro l hl j hj
      have hji : j ≠ i := fun hcontra => hnd.1 (hcontra ▸ hj)
      have hne : l.getD j 0 ≠ first.getD i 0 :=
        hnoalias l hl j i (hmem j (List.mem_cons_of_mem i hj)) hi hji
      simp only [if_neg hne]
      exact hagree l hl j (List.mem_cons_of_mem i hj)
    obtain ⟨heap₁, hrun, hw, hframe⟩ :=
      aggLoop_spec heap first rest attr hlen hattr hnoalias is
        (fun a => if a = first.getD i 0
            then pySet (heap₀ (first.getD i 0)) attr top else heap₀ a)
        (fun j hj => hmem j (List.mem_cons_of_mem i hj)) hnd.2 hagree'
    refine ⟨heap₁, ?_, ?_, ?_⟩
    · rw [aggLoop]
      simp only [Option.bind_eq_bind, List.headD_cons]
      rw [hget first (List.mem_cons_self first rest), Option.some_bind, hinner,
        Option.some_bind, htop, Option.some_bind, hrun, Option.some_bind,
        List.map_cons]
    · intro j hj
      rcases List.mem_cons.mp hj with rfl | hj'
      · have huntouched : ∀ j' ∈ is, first.getD j 0 ≠ first.getD j' 0 := by
          intro j' hj'
          have hjj : j ≠ j' := fun hcontra => hnd.1 (hcontra ▸ hj')
          exact hnoalias first (List.mem_cons_self first rest) j j' hi
            (hmem j' (List.mem_cons_of_mem j hj')) hjj
        rw [hframe _ huntouched]
        simp only [if_pos rfl]
        rw [hagree first (List.mem_cons_self first rest) j
          (List.mem_cons_self j is), htop, Option.iget_some]
        simp
      · exact hw j hj'
    · intro a ha
      have h1 : ∀ j ∈ is, a ≠ first.getD j 0 :=
        fun j hj => ha j (List.mem_cons_of_mem i hj)
      rw [hframe a h1]
      simp only [if_neg (ha i (List.mem_cons_self i is))]

/-- Claim C9. `from_discrete` is not pure with respect to its input: on a
valid matrix with `N ≥ 2` lists (entry objects not aliased across
positions), after the call every entry object of the caller's first list
has its voting attribute overwritten in place with the majority value of
its column, the returned aggregated list consists of exactly those same
entry objects (the same addresses, not fresh copies), and no other object
is touched. -/
theorem from_discrete_mutates_in_place [DecidableEq V] [Inhabited V]
    (heap : Heap V) (first : List Nat) (rest : List (List Nat)) (attr : String)
    (hN : rest ≠ [])
    (hlen : ∀ l ∈ first :: rest, l.length = first.length)
    (hattr : ∀ l ∈ first :: rest, ∀ a ∈ l, (pyGet (heap a) attr).isSome = true)
    (hnoalias : ∀ l ∈ first :: rest, ∀ i j, i < first.length → j < first.length →
      i ≠ j → l.getD i 0 ≠ first.getD j 0) :
    ∃ heap', from_discreteH heap (first :: rest) attr = some (first, heap') ∧
      (∀ i, i < first.length →
        heap' (first.getD i 0) =
          pySet (heap (first.getD i 0)) attr
            ((majoritySpec ((first :: rest).map
              fun l => dget (heap (l.getD i 0)) attr)).iget)) ∧
      (∀ a, (∀ i, i < first.length → a ≠ first.getD i 0) → heap' a = heap a) := by
  obtain ⟨heap₁, hrun, hw, hframe⟩ :=
    aggLoop_spec heap first rest attr hlen hattr hnoalias (List.range first.length)
      heap (fun i hi => List.mem_range.mp hi) (List.nodup_range first.length)
      (fun _ _ _ _ => rfl)
  have h1 : ((first :: rest).all
      fun item => item.length == ((first :: rest).headD []).length) = true := by
    rw [List.all_eq_true]
    intro l hl
    rw [List.headD_cons, beq_iff_eq]
    exact hlen l hl
  have h2 : ((first :: rest).all fun input =>
      input.all fun a => (pyGet (heap a) attr).isSome) = true := by
    rw [List.all_eq_true]
    intro l hl
    rw [List.all_eq_true]
    intro a ha
    exact hattr l hl a ha
  have h3 : ((first :: rest).length == 1) = false := by
    rw [beq_eq_false_iff_ne]
    simp only [List.length_cons, ne_eq, Nat.add_left_eq_self]
    simpa [List.length_eq_zero] using hN
  refine ⟨heap₁, ?_, ?_, ?_⟩
  · rw [from_discreteH, h1, h2, h3]
    simp only [Bool.not_true, Bool.false_eq_true, if_false]
    rw [hrun, map_getD_range]
  · intro i hi
    rw [hw i (List.mem_range.mpr hi), topVerdict_eq_majoritySpec]
  · intro a ha
    exact hframe a (fun i hi => ha i (List.mem_range.mp hi))

/-- Concrete run of claim C9: entry object `0` holds the first list's verdict
with `relevant = 1`, entry object `1` the second list's with `relevant = 0`
(a tie, resolved to the first list's value).  The call returns the very
address list `[0]` of the caller's first list, and afterwards object `0`
holds `relevant = 1` through the first-seen tie-break, while object `1`
is untouched. -/
theorem from_discrete_mutates_in_place_witness :
    (∃ heap', from_discreteH
        (fun a => if a = 0 then [("relevant", Val.int 1)]
          else if a = 1 then [("relevant", Val.int 0)] else [])
        [[0], [1]] "relevant" = some ([0], heap') ∧
      (∀ i, i < ([0] : List Nat).length →
        heap' (([0] : List Nat).getD i 0) =
          pySet ((fun a => if a = 0 then [("relevant", Val.int 1)]
              else if a = 1 then [("relevant", Val.int 0)] else [])
              (([0] : List Nat).getD i 0)) "relevant"
            ((majoritySpec ((([0], [[1]]).1 :: ([0], [[1]]).2).map
              fun l => dget ((fun a => if a = 0 then [("relevant", Val.int 1)]
                else if a = 1 then [("relevant", Val.int 0)] else [])
                (l.getD i 0)) "relevant")).iget)) ∧
      (∀ a, (∀ i, i < ([0] : List Nat).length → a ≠ ([0] : List Nat).getD i 0) →
        heap' a = (fun a => if a = 0 then [("relevant", Val.int 1)]
          else if a = 1 then [("relevant", Val.int 0)] else []) a)) ∧
    (from_discreteH
        (fun a => if a = 0 then [("relevant", Val.int 1)]
          else if a = 1 then [("relevant", Val.int 0)] else [])
        [[0], [1]] "relevant").map (fun r => (r.1, r.2 0, r.2 1))
      = some ([0], [("relevant", Val.int 1)], [("relevant", Val.int 0)]) :=
  ⟨from_discrete_mutates_in_place
      (fun a => if a = 0 then [("relevant", Val.int 1)]
        else if a = 1 then [("relevant", Val.int 0)] else [])
      [0] [[1]] "relevant"
      (by decide) (by decide) (by decide)
      (by
        intro l _ i j hi hj hij
        simp only [List.length_cons, List.length_nil] at hi hj
        exact absurd (by omega : i = j) hij),
   by decide⟩

lemma listSetEq_iff (xs ys : List String) :
    listSetEq xs ys = true ↔ xs.toFinset = ys.toFinset := by
  unfold listSetEq
  rw [Bool.and_eq_true, List.all_eq_true, List.all_eq_true]
  constructor
  · rintro ⟨h1, h2⟩
    ext a
    simp only [List.mem_toFinset]
    constructor
    · intro ha
      have := h1 a ha
      simpa using this
    · intro ha
      have := h2 a ha
      simpa using this
  · intro h
    constructor <;> intro a ha
    · have : a ∈ ys := by
        have := Finset.ext_iff.mp h a
        simp only [List.mem_toFinset] at this
        exact this.mp ha
      simpa using this
    · have : a ∈ xs := by
        have := Finset.ext_iff.mp h a
        simp only [List.mem_toFinset] at this
        exact this.mpr ha
      simpa using this

/-- Claim C6. Whenever the supplied argument mapping's key set differs from
the prompt's declared `input_keys` as a set, `Prompt.format` fails at its
very first step with the argument-mismatch error naming the expected and
the received key sets; no prompt is rendered and no collaborator (in
particular no LLM) is involved — the failure surfaces directly to the
caller, and nothing in `OutputParser.parse` catches it (its repair loop
only catches schema-validation failures). -/
theorem format_argument_mismatch (p : Prompt) (kwargs : List (String × Json))
    (h : p.input_keys.toFinset ≠ (kwargs.map (·.1)).toFinset) :
    Prompt.format p kwargs =
      .error (.promptArgumentError p.input_keys (kwargs.map (·.1))) := by
  rw [Prompt.format]
  have hfalse : listSetEq p.input_keys (kwargs.map (·.1)) = false := by
    rw [Bool.eq_false_iff]
    intro htrue
    exact h ((listSetEq_iff _ _).mp htrue)
  rw [hfalse]
  simp

/-- Concrete run of claim C6: a prompt expecting `context` called with a
`wrong` argument fails with the error carrying both key sets. -/
theorem format_argument_mismatch_witness :
    Prompt.format
      ⟨"instr", "", [], ["context"], "output", "json", "english"⟩
      [("wrong", Json.str "x")] =
      .error (.promptArgumentError ["context"] ["wrong"]) :=
  format_argument_mismatch
    ⟨"instr", "", [], ["context"], "output", "json", "english"⟩
    [("wrong", Json.str "x")] (by decide)

lemma checkExamples_ok_iff (ik : List String) (okey otype : String) :
    ∀ (exs : List (Dict Json)) (no : Nat),
    (∃ u, checkExamples ik okey otype no exs = .ok u) ↔
      ∀ ex ∈ exs,
        (∀ k ∈ ik, (pyGet ex k).isSome = true) ∧
        (pyGet ex okey).isSome = true ∧
        (pyLower otype = "json" →
          ∀ s, pyGet ex okey = some (Json.str s) → (jsonLoads s).isSome = true)
  | [], no => by
    constructor
    · intro _ ex hex
      exact absurd hex (List.not_mem_nil ex)
    · intro _
      exact ⟨(), rfl⟩
  | ex :: rest, no => by
    cases hfind : ik.find? (fun k => (pyGet ex k).isNone) with
    | some k =>
      have hk : k ∈ ik := List.mem_of_find?_eq_some hfind
      have hnone : (pyGet ex k).isNone = true := by
        simpa using List.find?_some hfind
      simp only [checkExamples, hfind]
      constructor
      · rintro ⟨u, hu⟩
        exact absurd hu (by simp)
      · intro hall
        have hs := (hall ex (List.mem_cons_self ex rest)).1 k hk
        rw [Option.isNone_iff_eq_none] at hnone
        rw [hnone] at hs
        exact absurd hs (by simp)
    | none =>
      have hik : ∀ k ∈ ik, (pyGet ex k).isSome = true := by
        intro k hk
        have h2 := List.find?_eq_none.mp hfind k hk
        cases hpg : pyGet ex k with
        | none => exact absurd (by simp [hpg]) h2
        | some v => rfl
      cases hget : pyGet ex okey with
      | none =>
        simp only [checkExamples, hfind, hget, Option.isNone_none, if_pos]
        constructor
        · rintro ⟨u, hu⟩
          exact absurd hu (by simp)
        · intro hall
          have hs := (hall ex (List.mem_cons_self ex rest)).2.1
          rw [hget] at hs
          exact absurd hs (by simp)
      | some j =>
        have houts : (pyGet ex okey).isSome = true := by rw [hget]; rfl
        by_cases hjson : pyLower otype = "json"
        · cases j with
          | str s =>
            by_cases hload : (jsonLoads s).isNone = true
            · simp only [checkExamples, hfind, hget, Option.isNone_some,
                Bool.false_eq_true, if_false]
              rw [if_pos hjson, if_pos hload]
              constructor
              · rintro ⟨u, hu⟩
                exact absurd hu (by simp)
              · intro hall
                have hs := (hall ex (List.mem_cons_self ex rest)).2.2 hjson s hget
                rw [Option.isNone_iff_eq_none] at hload
                rw [hload] at hs
                exact absurd hs (by simp)
            · simp only [checkExamples, hfind, hget, Option.isNone_some,
                Bool.false_eq_true, if_false]
              rw [if_pos hjson, if_neg hload]
              rw [checkExamples_ok_iff ik okey otype rest (no + 1)]
              constructor
              · intro hrest ex2 hex2
                rcases List.mem_cons.mp hex2 with rfl | hex2
                · refine ⟨hik, houts, fun _ s2 hs2 => ?_⟩
                  rw [hget] at hs2
                  injection hs2 with hs2
                  injection hs2 with hs2
                  subst hs2
                  rw [Bool.not_eq_true] at hload
                  exact (Option.isNone_eq_false_iff _).mp hload
                · exact hrest ex2 hex2
              · intro hall ex2 hex2
                exact hall ex2 (List.mem_cons_of_mem ex hex2)
          | null => ?_
          | bool b => ?_
          | num n => ?_
          | arr xs => ?_
          | obj fs => ?_
          all_goals
            simp only [checkExamples, hfind, hget, Option.isNone_some,
              Bool.false_eq_true, if_false]
          all_goals
            rw [if_pos hjson]
          all_goals
            rw [checkExamples_ok_iff ik okey otype rest (no + 1)]
          all_goals
            constructor
            · intro hrest ex2 hex2
              rcases List.mem_cons.mp hex2 with rfl | hex2
              · refine ⟨hik, houts, fun _ s2 hs2 => ?_⟩
                rw [hget] at hs2
                exact absurd hs2 (by simp)
              · exact hrest ex2 hex2
            · intro hall ex2 hex2
              exact hall ex2 (List.mem_cons_of_mem ex hex2)
        · simp only [checkExamples, hfind, hget, Option.isNone_some,
            Bool.false_eq_true, if_false]
          rw [if_neg hjson]
          rw [checkExamples_ok_iff ik okey otype rest (no + 1)]
          constructor
          · intro hrest ex2 hex2
            rcases List.mem_cons.mp hex2 with rfl | hex2
            · exact ⟨hik, houts, fun hj => absurd hj hjson⟩
            · exact hrest ex2 hex2
          · intro hall ex2 hex2
            exact hall ex2 (List.mem_cons_of_mem ex hex2)

/-- Claim C7, amended. `Prompt` construction succeeds exactly when the
instruction, input keys and output key are non-empty, every example
supplies a value for every declared input variable and for the output
variable, and — when the output kind is structured (`json`) — every
example's *string-valued* output parses as well-formed JSON.  Conformance
of example outputs to the declared schema contract is *not* checked, and
non-string structured outputs are accepted without any check.  Violations
of the checks above are rejected at construction time with a descriptive
error. -/
theorem validate_prompt_characterization (p : Prompt) :
    (∃ q, mkPrompt p = .ok q) ↔
      (p.instruction ≠ "" ∧ p.input_keys ≠ [] ∧ p.output_key ≠ "" ∧
       ∀ ex ∈ p.examples,
         (∀ k ∈ p.input_keys, (pyGet ex k).isSome = true) ∧
         (pyGet ex p.output_key).isSome = true ∧
         (pyLower p.output_type = "json" →
           ∀ s, pyGet ex p.output_key = some (Json.str s) →
             (jsonLoads s).isSome = true)) := by
  rw [mkPrompt]
  by_cases h1 : p.instruction = ""
  · rw [if_pos h1]
    constructor
    · rintro ⟨q, hq⟩
      exact absurd hq (by simp)
    · rintro ⟨hne, -⟩
      exact absurd h1 hne
  · rw [if_neg h1]
    by_cases h2 : p.input_keys = []
    · rw [if_pos h2]
      constructor
      · rintro ⟨q, hq⟩
        exact absurd hq (by simp)
      · rintro ⟨-, hne, -⟩
        exact absurd h2 hne
    · rw [if_neg h2]
      by_cases h3 : p.output_key = ""
      · rw [if_pos h3]
        constructor
        · rintro ⟨q, hq⟩
          exact absurd hq (by simp)
        · rintro ⟨-, -, hne, -⟩
          exact absurd h3 hne
      · rw [if_neg h3]
        cases hchk : checkExamples p.input_keys p.output_key p.output_type 0
            p.examples with
        | ok u =>
          have hex := (checkExamples_ok_iff p.input_keys p.output_key
            p.output_type p.examples 0).mp ⟨u, hchk⟩
          constructor
          · intro _
            exact ⟨h1, h2, h3, hex⟩
          · intro _
            exact ⟨p, rfl⟩
        | error e =>
          constructor
          · rintro ⟨q, hq⟩
            exact absurd hq (by simp)
          · rintro ⟨-, -, -, hex⟩
            obtain ⟨u, hu⟩ := (checkExamples_ok_iff p.input_keys p.output_key
              p.output_type p.examples 0).mpr hex
            rw [hchk] at hu
            exact absurd hu (by simp)

/-- Concrete run of the amended claim C7: a minimal valid prompt (no
examples) is accepted by construction. -/
theorem validate_prompt_characterization_witness :
    ∃ q, mkPrompt ⟨"i", "", [], ["a"], "o", "json", "english"⟩ = .ok q :=
  (validate_prompt_characterization
      ⟨"i", "", [], ["a"], "o", "json", "english"⟩).mpr
    ⟨by decide, by decide, by decide, by simp⟩

/-- Claim C7 fails on the code: a structured-output prompt whose declared
contract is the `questions`-object schema, with an example output `"5"` —
well-formed JSON that is *not* valid structured data under that contract —
is accepted by construction.  `validate_prompt` checks only `json.loads`
well-formedness of string-valued outputs; it never checks the declared
contract. -/
theorem validate_prompt_contract_counterexample :
    mkPrompt
      ⟨"Generate questions",
        "The output should be a JSON object with a questions array of strings",
        [[("context", Json.str "c"), ("output", Json.str "5")]],
        ["context"], "output", "json", "english"⟩ =
      .ok ⟨"Generate questions",
        "The output should be a JSON object with a questions array of strings",
        [[("context", Json.str "c"), ("output", Json.str "5")]],
        ["context"], "output", "json", "english"⟩ ∧
    outputsConform questionListContract
      ⟨"Generate questions",
        "The output should be a JSON object with a questions array of strings",
        [[("context", Json.str "c"), ("output", Json.str "5")]],
        ["context"], "output", "json", "english"⟩ = false :=
  ⟨rfl, rfl⟩

/-- Claim C3. Every successful run of `add_documents` returns exactly the
number of aggregated verdicts whose `relevant` attribute equals `1`, which
is also the length of the batch handed to the storage collaborator in the
single `add_documents` call on the vector store. -/
theorem add_documents_count (llm : Nat → String)
    (parseQL : String → Option (List String)) (parseQA : String → Option (List QA))
    (max_retries reproducibility : Nat) (document : String) (n : Nat)
    (docs : List Doc)
    (h : add_documents llm parseQL parseQA max_retries reproducibility document
      = .ok (n, docs)) :
    ∃ qa_list, pipelineAgg llm parseQL parseQA max_retries reproducibility
        = .ok qa_list ∧
      n = docs.length ∧
      n = (qa_list.filter fun q => q.relevant == 1).length ∧
      docs = (qa_list.filter fun q => q.relevant == 1).map
        (fun q => Doc.mk q.question document) := by
  cases hp : pipelineAgg llm parseQL parseQA max_retries reproducibility with
  | error e =>
    simp only [add_documents, hp] at h
    exact absurd h (by simp)
  | ok qa_list =>
    simp only [add_documents, hp, Except.ok.injEq, Prod.mk.injEq] at h
    obtain ⟨hn, hdocs⟩ := h
    refine ⟨qa_list, rfl, ?_, ?_, hdocs.symm⟩
    · rw [← hn, ← hdocs, List.length_map]
    · rw [← hn, List.length_map]

/-- Concrete run of claim C3: two identical answerability samples over two
questions, one relevant; the run returns `1` and the stored batch is
exactly the one accepted question. -/
theorem add_documents_count_witness :
    ∃ qa_list, pipelineAgg (fun _ => "t") (fun _ => some ["q1"])
        (fun _ => some [⟨"q1", "e", 1⟩, ⟨"q2", "e2", 0⟩]) 1 2 = .ok qa_list ∧
      1 = [Doc.mk "q1" "d"].length ∧
      1 = (qa_list.filter fun q => q.relevant == 1).length ∧
      [Doc.mk "q1" "d"] = (qa_list.filter fun q => q.relevant == 1).map
        (fun q => Doc.mk q.question "d") :=
  add_documents_count (fun _ => "t") (fun _ => some ["q1"])
    (fun _ => some [⟨"q1", "e", 1⟩, ⟨"q2", "e2", 0⟩]) 1 2 "d" 1
    [Doc.mk "q1" "d"] rfl

/-- Claim C4 fails on the code. When every answerability completion fails to
parse, the `if answerablity_list:` guard skips ensembling — but the code
then unconditionally reads `answerablity_list.root` off the plain empty
list, raising `AttributeError` instead of returning `0`. -/
theorem add_documents_all_parses_fail_crash :
    add_documents (fun _ => "t") (fun _ => some ["q1"]) (fun _ => none) 1 1 "d"
      = .error .attributeError := rfl

end QBRAG
